import Mathlib

/-
  Verification development for the microbench capture-and-emit pipeline
  (src/microbench/__init__.py). Python values, records (ordered dicts),
  the JSON serializer, the telemetry thread, and the wrapped-call pipeline
  are shallowly embedded; the claims of the specification are then settled
  as theorems about these definitions.
-/

namespace Microbench

/-- The universe of Python values a benchmark record can hold.
`dt` is a datetime (an abstract clock reading), `func` a function object
(only ever stored under the transient `_func` key), and `obj` an arbitrary
object that `json.dumps` cannot natively encode.  The numpy branch of
`JSONEncoder.default` is elided: it is guarded by an optional import and no
claim quantifies over numpy scalars. -/
inductive PyVal where
  | none
  | bool (b : Bool)
  | int (n : Int)
  | str (s : String)
  | dt (t : Int)
  | func (name : String)
  | list (xs : List PyVal)
  | dict (kvs : List (String × PyVal))
  | obj (ty : String)

/-- A benchmark record (`bm_data`): a Python dict, i.e. an insertion-ordered
association list from string keys to values. -/
abbrev Record := List (String × PyVal)

/-- Python dict item assignment `r[k] = v`: overwrite in place if the key is
present (keeping its position), otherwise append. -/
def setKey (r : Record) (k : String) (v : PyVal) : Record :=
  if r.any (fun kv => kv.1 == k) then
    r.map (fun kv => if kv.1 = k then (k, v) else kv)
  else
    r ++ [(k, v)]

/-- Python dict lookup `r[k]` / `r.get(k)`. -/
def getVal (r : Record) (k : String) : Option PyVal :=
  match r with
  | [] => Option.none
  | kv :: rest => if kv.1 = k then some kv.2 else getVal rest k

/-- Embeds Python `k.startswith('_')`: the first character of the key is an
underscore. -/
def underscored (s : String) : Bool :=
  s.data.head? == some '_'

/-- JSON values, the output universe of the serializer. -/
inductive JValue where
  | null
  | bool (b : Bool)
  | int (n : Int)
  | str (s : String)
  | arr (xs : List JValue)
  | obj (kvs : List (String × JValue))

/-- Abstract model of `datetime.isoformat()`: an injective textual rendering
of the clock reading. -/
def isoformat (t : Int) : String :=
  "ts:" ++ toString t

mutual

/-- Embeds the serializer of src (`json.dumps` with `JSONEncoder`):
datetimes become their isoformat string, native JSON types encode
themselves, and any other object makes `JSONEncoder.default` fall through
to `json.JSONEncoder.default`, which raises `TypeError`. -/
def encodeVal : PyVal → Except String JValue
  | .none => .ok .null
  | .bool b => .ok (.bool b)
  | .int n => .ok (.int n)
  | .str s => .ok (.str s)
  | .dt t => .ok (.str (isoformat t))
  | .func _ => .error "TypeError: Object of type function is not JSON serializable"
  | .obj ty => .error ("TypeError: Object of type " ++ ty ++ " is not JSON serializable")
  | .list xs =>
    match encodeValList xs with
    | .error e => .error e
    | .ok js => .ok (.arr js)
  | .dict kvs =>
    match encodeValDict kvs with
    | .error e => .error e
    | .ok js => .ok (.obj js)

def encodeValList : List PyVal → Except String (List JValue)
  | [] => .ok []
  | v :: vs =>
    match encodeVal v with
    | .error e => .error e
    | .ok j =>
      match encodeValList vs with
      | .error e => .error e
      | .ok js => .ok (j :: js)

def encodeValDict : List (String × PyVal) → Except String (List (String × JValue))
  | [] => .ok []
  | kv :: kvs =>
    match encodeVal kv.2 with
    | .error e => .error e
    | .ok j =>
      match encodeValDict kvs with
      | .error e => .error e
      | .ok js => .ok ((kv.1, j) :: js)

end

/-- Modelled from the spec: the fixed sentinel `_UNENCODABLE_PLACEHOLDER_VALUE`
substituted for values the serializer cannot natively encode.  The constant
is absent from the src snapshot of `microbench/__init__.py`; the test suite
imports it from the package.  It is a distinguished string constant, not
JSON null. -/
def UNENCODABLE_PLACEHOLDER : String := "__unencodable__"

/-- A `JSONEncodeWarning`: names the offending record key and the type of
the value that could not be encoded.  Modelled from the spec: the warning
class is absent from the src snapshot; the test suite imports it. -/
def EncodeWarning := String × String

/-- The Python type name of a value, as a warning would report it. -/
def pyTypeName : PyVal → String
  | .none => "NoneType"
  | .bool _ => "bool"
  | .int _ => "int"
  | .str _ => "str"
  | .dt _ => "datetime"
  | .func _ => "function"
  | .list _ => "list"
  | .dict _ => "dict"
  | .obj ty => ty

mutual

/-- Modelled from the spec: the fault-tolerant serializer.  The placeholder
fallback branch of `JSONEncoder.default` is absent from the src snapshot
(the tests exercise it via `test_unjsonencodable_arg_kwarg_retval`).  It
walks values recursively; a leaf the encoder cannot natively encode is
replaced by the sentinel placeholder and one warning naming the offending
key and type is emitted; siblings are encoded as usual.  The function is
total: encoding never fails. -/
def encodeValSpec : String → PyVal → JValue × List EncodeWarning
  | _, .none => (.null, [])
  | _, .bool b => (.bool b, [])
  | _, .int n => (.int n, [])
  | _, .str s => (.str s, [])
  | _, .dt t => (.str (isoformat t), [])
  | key, .func _ => (.str UNENCODABLE_PLACEHOLDER, [(key, "function")])
  | key, .obj ty => (.str UNENCODABLE_PLACEHOLDER, [(key, ty)])
  | key, .list xs =>
    let p := encodeListSpec key xs
    (.arr p.1, p.2)
  | _, .dict kvs =>
    let p := encodeDictSpec kvs
    (.obj p.1, p.2)

def encodeListSpec : String → List PyVal → List JValue × List EncodeWarning
  | _, [] => ([], [])
  | key, v :: vs =>
    let a := encodeValSpec key v
    let b := encodeListSpec key vs
    (a.1 :: b.1, a.2 ++ b.2)

def encodeDictSpec : List (String × PyVal) → List (String × JValue) × List EncodeWarning
  | [] => ([], [])
  | kv :: kvs =>
    let a := encodeValSpec kv.1 kv.2
    let b := encodeDictSpec kvs
    ((kv.1, a.1) :: b.1, a.2 ++ b.2)

end

mutual

/-- The number of leaves of a value that the serializer of src cannot
natively encode (arbitrary objects and function objects). -/
def unencodableLeaves : PyVal → Nat
  | .none | .bool _ | .int _ | .str _ | .dt _ => 0
  | .func _ => 1
  | .obj _ => 1
  | .list xs => unencodableLeavesList xs
  | .dict kvs => unencodableLeavesDict kvs

def unencodableLeavesList : List PyVal → Nat
  | [] => 0
  | v :: vs => unencodableLeaves v + unencodableLeavesList vs

def unencodableLeavesDict : List (String × PyVal) → Nat
  | [] => 0
  | kv :: kvs => unencodableLeaves kv.2 + unencodableLeavesDict kvs

end

mutual

/-- Renders a JSON value as text (the string returned by `json.dumps`). -/
def renderJson : JValue → String
  | .null => "null"
  | .bool b => if b then "true" else "false"
  | .int n => toString n
  | .str s => "\"" ++ s ++ "\""
  | .arr xs => "[" ++ renderJsonList xs ++ "]"
  | .obj kvs => "\x7b" ++ renderJsonObj kvs ++ "\x7d"

def renderJsonList : List JValue → String
  | [] => ""
  | [x] => renderJson x
  | x :: xs => renderJson x ++ ", " ++ renderJsonList xs

def renderJsonObj : List (String × JValue) → String
  | [] => ""
  | [kv] => "\"" ++ kv.1 ++ "\": " ++ renderJson kv.2
  | kv :: kvs => "\"" ++ kv.1 ++ "\": " ++ renderJson kv.2 ++ ", " ++ renderJsonObj kvs

end

/-- Embeds `MicroBench.to_json` with the spec-modelled fault-tolerant
encoder: every record encodes to a JSON string, together with the warnings
emitted along the way. -/
def to_json (r : Record) : String × List EncodeWarning :=
  let p := encodeDictSpec r
  (renderJson (.obj p.1), p.2)

/-- Embeds `MicroBench.to_json` over the serializer exactly as it stands in
the src snapshot: encoding fails whenever some leaf is unencodable. -/
def to_json_src (r : Record) : Except String String :=
  match encodeValDict r with
  | .error e => .error e
  | .ok js => .ok (renderJson (.obj js))

/-- Configuration of the telemetry sampler (`MicroBench.telemetry`,
`telemetry_interval`, `telemetry_timeout`).  The sampling function is the
user-supplied `telemetry(process)`; sample index `j` stands for its `j`-th
invocation, and a raised exception is modelled by an `error` result. -/
structure TelemetrySpec where
  fn : Nat → Except String (List (String × PyVal))
  interval : Nat
  timeout : Nat

/-- A scheduling of one wrapped call: the shared wall clock (`datetime.now`
readings indexed by global call order), the clock indices at which the main
thread stamps `start_time` and `finish_time`, the clock index `tsched j` of
the telemetry thread's `j`-th sample timestamp, the wait round at which the
thread observes the terminate event (`term n` = `_terminate.wait` returns
true at round `n`), and `fuel`, the number of wait rounds the thread gets
to run before the bounded `join` gives up. -/
structure Sched where
  clock : Nat → Int
  mStart : Nat
  mFin : Nat
  tsched : Nat → Nat
  term : Nat → Bool
  fuel : Nat

/-- One telemetry sample as built by `TelemetryThread._get_telemetry`:
a dict holding the timestamp and the fields returned by the sampling
function. -/
def mkSample (s : Sched) (j : Nat) (fields : List (String × PyVal)) : PyVal :=
  .dict (("timestamp", .dt (s.clock (s.tsched j))) :: fields)

/-- Embeds the loop of `TelemetryThread.run`: at wait round `i`, if the
terminate event is observed the loop exits; otherwise one more sample is
taken.  An exception from the sampling function kills the thread (it stops
sampling and the failing sample is not appended; nothing propagates to the
main thread).  Returns the samples appended to the record's telemetry slot
and whether the thread has finished within `fuel` rounds. -/
def runThreadLoop (spec : TelemetrySpec) (s : Sched) :
    Nat → Nat → List PyVal → List PyVal × Bool
  | _, 0, acc => (acc, false)
  | i, fuel + 1, acc =>
    if s.term i then (acc, true)
    else
      match spec.fn (i + 1) with
      | .error _ => (acc, true)
      | .ok fields => runThreadLoop spec s (i + 1) fuel (acc ++ [mkSample s (i + 1) fields])

/-- Embeds `TelemetryThread.run`: one immediate sample, then the wait loop. -/
def runThread (spec : TelemetrySpec) (s : Sched) : List PyVal × Bool :=
  match spec.fn 0 with
  | .error _ => ([], true)
  | .ok fields => runThreadLoop spec s 0 s.fuel [mkSample s 0 fields]

/-- A capture hook, the callable case: the keys it writes into the record
(each value may read the record as it stood when the hook ran) and whether
it raises on a given record (e.g. a missing optional dependency). -/
structure HookModel where
  writes : List (String × (Record → PyVal))
  err : Record → Option String

/-- An attribute of the pipeline object whose name starts with `capture_`,
as enumerated by `dir(self)` in `pre_run_triggers`: either an invocable
method or a non-callable value. -/
inductive Attr where
  | callable (h : HookModel)
  | nonCallable (v : PyVal)

/-- The sink destination `self.outfile`: a file path (string) or an
in-memory text stream (`io.StringIO` with its current contents). -/
inductive Outfile where
  | path (p : String)
  | stream (buf : String)

/-- A `MicroBench` pipeline instance: static fields from constructor
kwargs, the optional `env_vars` and `capture_versions` class attributes
(a captured package is its name together with its `__version__`, `none`
when absent), the `capture_`-named attributes found by `dir`, the
`_capture_before` skip list, the optional telemetry configuration,
whether `MBReturnValue` is mixed in, and the sink. -/
structure Bench where
  bm_static : Record
  env_vars : Option (List String)
  capture_versions : Option (List (String × Option String))
  captureAttrs : List (String × Attr)
  capture_before : List String
  telemetry : Option TelemetrySpec
  returnValue : Bool
  outfile : Outfile

/-- Embeds `MicroBench.__init__`: positional arguments are rejected,
kwargs become the static fields, and the sink falls back to the class
attribute and then to a fresh empty `StringIO`. -/
def initBench (args : List PyVal) (outfile : Option Outfile) (classOutfile : Option Outfile)
    (kwargs : Record) : Except String Bench :=
  if !args.isEmpty then .error "ValueError: Only keyword arguments are allowed"
  else .ok
    { bm_static := kwargs
      env_vars := Option.none
      capture_versions := Option.none
      captureAttrs := []
      capture_before := []
      telemetry := Option.none
      returnValue := false
      outfile :=
        match outfile with
        | some o => o
        | Option.none =>
          match classOutfile with
          | some o => o
          | Option.none => .stream "" }

/-- The value stored for a captured environment variable:
`os.environ.get(name)`, i.e. Python `None` when the variable is unset. -/
def pyOfEnv : Option String → PyVal
  | Option.none => PyVal.none
  | some s => .str s

/-- Embeds the environment-variable capture of `pre_run_triggers`:
for each configured name in order, `bm_data['env_<name>'] = os.environ.get(name)`. -/
def envPhase (names : List String) (environ : String → Option String) (r : Record) : Record :=
  match names with
  | [] => r
  | n :: rest => envPhase rest environ (setKey r ("env_" ++ n) (pyOfEnv (environ n)))

/-- Embeds `MicroBench._capture_package_version`: ensure the
`package_versions` dict exists (`setdefault`) and store the package's
version under its name; item assignment on a non-dict value raises. -/
def addPkgVersion (r : Record) (pkg : String × Option String) : Except String Record :=
  match getVal r "package_versions" with
  | Option.none => .ok (setKey r "package_versions" (.dict [(pkg.1, pyOfEnv pkg.2)]))
  | some (.dict d) => .ok (setKey r "package_versions" (.dict (setKey d pkg.1 (pyOfEnv pkg.2))))
  | some _ => .error "TypeError: package_versions is not a dict"

/-- Embeds the `capture_versions` loop of `pre_run_triggers`. -/
def versionsPhase : List (String × Option String) → Record → Except String Record
  | [], r => .ok r
  | p :: ps, r =>
    match addPkgVersion r p with
    | .error e => .error e
    | .ok r2 => versionsPhase ps r2

/-- Writes a hook's key/value pairs into the record in order; each value
may read the record as it stands. -/
def applyWrites : List (String × (Record → PyVal)) → Record → Record
  | [], r => r
  | w :: ws, r => applyWrites ws (setKey r w.1 (w.2 r))

/-- Runs one callable capture hook: it either raises or writes its keys
into the record in order. -/
def runHook (h : HookModel) (r : Record) : Except String Record :=
  match h.err r with
  | some e => .error e
  | Option.none => .ok (applyWrites h.writes r)

/-- Embeds `MicroBench.capture_function_name`, a `capture_` method present
on every pipeline: reads the transient `_func` key and records the wrapped
function's name. -/
def captureFunctionName (r : Record) : Except String Record :=
  match getVal r "_func" with
  | some (.func n) => .ok (setKey r "function_name" (.str n))
  | _ => .error "KeyError: _func"

/-- Embeds the `capture_` dispatch loop of `pre_run_triggers`: a
non-callable attribute fails the `callable(method)` test and is skipped;
a callable listed in `_capture_before` is skipped; otherwise the hook runs
and an exception it raises propagates. -/
def runAttrs : List (String × Attr) → List String → Record → Except String Record
  | [], _, r => .ok r
  | (_, .nonCallable _) :: rest, before, r => runAttrs rest before r
  | (name, .callable h) :: rest, before, r =>
    if name ∈ before then runAttrs rest before r
    else
      match runHook h r with
      | .error e => .error e
      | .ok r2 => runAttrs rest before r2

/-- The hook-dispatch phase: the built-in `capture_function_name` plus the
pipeline's own `capture_` attributes (`dir` order). -/
def hooksPhase (b : Bench) (r : Record) : Except String Record :=
  match captureFunctionName r with
  | .error e => .error e
  | .ok r1 => runAttrs b.captureAttrs b.capture_before r1

/-- The environment-variable capture step of `pre_run_triggers`, a no-op
when the pipeline has no `env_vars` attribute. -/
def envApplied (b : Bench) (environ : String → Option String) (r : Record) : Record :=
  match b.env_vars with
  | Option.none => r
  | some names => envPhase names environ r

/-- The package-version capture step of `pre_run_triggers`, a no-op when
the pipeline has no `capture_versions` attribute. -/
def versionsApplied (b : Bench) (r : Record) : Except String Record :=
  match b.capture_versions with
  | Option.none => .ok r
  | some ps => versionsPhase ps r

/-- The telemetry-start step of `pre_run_triggers`: when a sampler is
configured, `bm_data['telemetry']` is bound to the sequence the thread
fills (the model records the content it holds at join time, with the
thread's finished flag). -/
def telemetryRecord (b : Bench) (s : Sched) (r : Record) : Record × (List PyVal × Bool) :=
  match b.telemetry with
  | Option.none => (r, ([], true))
  | some spec => (setKey r "telemetry" (.list (runThread spec s).1), runThread spec s)

/-- Embeds `MicroBench.pre_run_triggers`: environment-variable capture,
package-version capture, `capture_` hook dispatch, telemetry start, then
the `start_time` stamp as the final step. -/
def pre_run_triggers (b : Bench) (s : Sched) (environ : String → Option String)
    (r : Record) : Except String (Record × (List PyVal × Bool)) :=
  match versionsApplied b (envApplied b environ r) with
  | .error e => .error e
  | .ok r2 =>
    match hooksPhase b r2 with
    | .error e => .error e
    | .ok r3 =>
      .ok (setKey (telemetryRecord b s r3).1 "start_time" (.dt (s.clock s.mStart)),
        (telemetryRecord b s r3).2)

/-- Embeds `MicroBench.post_run_triggers`: stamp `finish_time` immediately
after the call, then terminate and join the telemetry thread (the
terminate/join interaction is carried by `Sched.term` and `Sched.fuel`
through `runThread`). -/
def post_run_triggers (s : Sched) (r : Record) : Record :=
  setKey r "finish_time" (.dt (s.clock s.mFin))

/-- Embeds the dict comprehension of `inner` that strips
underscore-prefixed (transient) keys before serialization. -/
def stripTransient (r : Record) : Record :=
  r.filter (fun kv => !underscored kv.1)

/-- Embeds `MicroBench.output_result`: serialize the record to one JSON
line; a string outfile is opened in append mode and written as one atomic
unit, a stream outfile is written directly. -/
def output_result (o : Outfile) (files : String → String) (line : String) :
    Outfile × (String → String) :=
  match o with
  | .path p => (.path p, fun q => if q == p then files q ++ line else files q)
  | .stream buf => (.stream (buf ++ line), files)

/-- The observable events of one wrapped call, in main-thread program
order. -/
inductive Ev where
  | envCapture
  | versionCapture
  | hooks
  | telemStart
  | stampStart
  | callBegin
  | callEnd
  | stampFinish
  | telemTerminate
  | telemJoin
  | output
  deriving DecidableEq

/-- The main-thread event sequence of `pre_run_triggers`. -/
def preTrace (b : Bench) : List Ev :=
  (if b.env_vars.isSome then [.envCapture] else []) ++
  (if b.capture_versions.isSome then [.versionCapture] else []) ++
  [.hooks] ++
  (if b.telemetry.isSome then [.telemStart] else []) ++
  [.stampStart]

/-- The main-thread event sequence of a wrapped call that completes
normally, following the statement order of `inner`, `pre_run_triggers`
and `post_run_triggers`. -/
def fullTrace (b : Bench) : List Ev :=
  preTrace b ++ [.callBegin, .callEnd, .stampFinish] ++
  (if b.telemetry.isSome then [.telemTerminate, .telemJoin] else []) ++
  [.output]

/-- The outcome of one wrapped call: the value returned (or exception
raised) to the caller, the sink state, the persisted record if any, the
telemetry thread's finished flag, and the main-thread event trace. -/
structure CallResult where
  res : Except String PyVal
  outfile : Outfile
  files : String → String
  record : Option Record
  telemFinished : Bool
  trace : List Ev

/-- The record as `inner` builds it before the pre-run triggers: the
static fields, then the transient `_func`, `_args` and `_kwargs` keys. -/
def initialRecord (b : Bench) (fname : String) (args : List PyVal)
    (kwargs : List (String × PyVal)) : Record :=
  let bm0 := b.bm_static.foldl (fun r kv => setKey r kv.1 kv.2) ([] : Record)
  setKey (setKey (setKey bm0 "_func" (.func fname)) "_args" (.list args))
    "_kwargs" (.dict kwargs)

/-- The record `inner` hands to `output_result` after a normal return:
post-run stamps, optional return-value capture, transient keys stripped. -/
def finalRecord (b : Bench) (s : Sched) (bm2 : Record) (res : PyVal) : Record :=
  stripTransient
    (if b.returnValue then setKey (post_run_triggers s bm2) "return_value" res
     else post_run_triggers s bm2)

/-- Embeds the wrapped function `inner` returned by `MicroBench.__call__`:
build the record from the static fields and the transient `_func`,
`_args`, `_kwargs` keys, run the pre-run triggers, invoke the wrapped
function (an exception from it, or from a trigger, propagates unchanged
and nothing is persisted), run the post-run triggers, capture the return
value when `MBReturnValue` is mixed in, strip transient keys, and append
the serialized record to the sink. -/
def innerCall (b : Bench) (s : Sched) (environ : String → Option String)
    (files : String → String) (f : List PyVal → List (String × PyVal) → Except String PyVal)
    (fname : String) (args : List PyVal) (kwargs : List (String × PyVal)) : CallResult :=
  match pre_run_triggers b s environ (initialRecord b fname args kwargs) with
  | .error e =>
    { res := .error e, outfile := b.outfile, files := files, record := Option.none
      telemFinished := b.telemetry.isNone, trace := [] }
  | .ok (bm2, tinfo) =>
    match f args kwargs with
    | .error e =>
      -- the wrapped function raised: post_run_triggers never runs, the
      -- telemetry thread is never terminated, no record is persisted
      { res := .error e, outfile := b.outfile, files := files, record := Option.none
        telemFinished := b.telemetry.isNone, trace := preTrace b ++ [.callBegin] }
    | .ok res =>
      let bm5 := finalRecord b s bm2 res
      let line := (to_json bm5).1 ++ "\n"
      let out := output_result b.outfile files line
      { res := .ok res, outfile := out.1, files := out.2, record := some bm5
        telemFinished := (b.telemetry.map (fun _ => tinfo.2)).getD true
        trace := fullTrace b }

/-- A minimal schedule for concrete examples: the identity clock, start
and finish stamps at clock indices 1 and 2, each sample timestamped at
its own index, the terminate event observed at once, ample join fuel. -/
def tinySched : Sched :=
  { clock := fun n => (n : Int), mStart := 1, mFin := 2, tsched := fun j => j
    term := fun _ => true, fuel := 3 }

/-- A pipeline with no capture attributes and no telemetry, for concrete
examples. -/
def plainBench : Bench :=
  { bm_static := [], env_vars := Option.none, capture_versions := Option.none
    captureAttrs := [], capture_before := [], telemetry := Option.none
    returnValue := false, outfile := .stream "" }

/-- A pipeline whose telemetry sampling function raises on every
invocation. -/
def failSamplerBench : Bench :=
  { plainBench with
    telemetry := some
      { fn := fun _ => .error "RuntimeError: sampler failed", interval := 60, timeout := 30 } }

/-- A pipeline whose telemetry sampling function always succeeds. -/
def okSamplerBench : Bench :=
  { plainBench with
    telemetry := some
      { fn := fun _ => .ok [("rss", .int 5)], interval := 60, timeout := 30 } }

/-- A pipeline whose telemetry sampling function succeeds on its first
invocation and raises on every later one. -/
def failSecondSamplerBench : Bench :=
  { plainBench with
    telemetry := some
      { fn := fun i => if i = 0 then .ok [("rss", .int 5)]
                       else .error "RuntimeError: sampler failed"
        interval := 60, timeout := 30 } }

/-- A schedule whose terminate event is observed only from wait round 1,
so the thread attempts a second sample before stopping. -/
def lateSched : Sched :=
  { clock := fun n => (n : Int), mStart := 1, mFin := 4, tsched := fun j => j
    term := fun n => decide (1 ≤ n), fuel := 3 }

/-- A pipeline that captures the (unset) environment variable `HOME`. -/
def envBench : Bench :=
  { plainBench with env_vars := some ["HOME"] }

/-- A pipeline carrying a registered but non-invocable `capture_foo`
attribute. -/
def nonCallableBench : Bench :=
  { plainBench with captureAttrs := [("capture_foo", .nonCallable (.int 42))] }

/-- Modelled from the spec: the iteration results of repeated-iteration
mode.  The iteration loop (the `iterations` configuration and the
`run_durations` record key) is absent from the src snapshot of
`MicroBench.__call__`; the test `test_multi_iterations` exercises it.
`f i` is the wrapped function's result on its `i`-th invocation; one
wrapped call invokes it for `i = 0 .. N-1` in order. -/
def iterResults (f : Nat → PyVal) (N : Nat) : List PyVal :=
  (List.range N).map f

/-- Modelled from the spec: the per-iteration wall-clock durations of
repeated-iteration mode.  Iteration `i` runs between clock indices
`2*i + 1` and `2*i + 2`; `start_time` is stamped at index 0 and
`finish_time` at index `2*N + 1`, so the overall measured duration also
covers the gaps between the per-iteration measurements. -/
def iterDurations (clock : Nat → Int) (N : Nat) : List Int :=
  (List.range N).map (fun i => clock (2 * i + 2) - clock (2 * i + 1))

/-- Modelled from the spec: one wrapped call in repeated-iteration mode —
the persisted record (static fields plus `start_time`, `run_durations`,
`finish_time`) and the value returned to the caller, which is the last
iteration's result. -/
def innerCallIter (clock : Nat → Int) (static : Record) (f : Nat → PyVal) (N : Nat) :
    Record × Option PyVal :=
  (setKey (setKey (setKey static "start_time" (.dt (clock 0)))
      "run_durations" (.list ((iterDurations clock N).map PyVal.int)))
    "finish_time" (.dt (clock (2 * N + 1))),
   (iterResults f N).getLast?)

/-- The empty process environment, for concrete examples. -/
def emptyEnv : String → Option String := fun _ => Option.none

/-- The empty file system, for concrete examples. -/
def emptyFS : String → String := fun _ => ""

/-- The set of keys of a record. -/
def keysOf (r : Record) : Finset String :=
  (r.map Prod.fst).toFinset

/-- The keys written by the environment-variable capture. -/
def envKeysOf (b : Bench) : Finset String :=
  match b.env_vars with
  | Option.none => ∅
  | some names => (names.map (fun n => "env_" ++ n)).toFinset

/-- The keys written by the package-version capture: `package_versions`
exactly when at least one package is configured. -/
def versionKeysOf (b : Bench) : Finset String :=
  match b.capture_versions with
  | Option.none => ∅
  | some [] => ∅
  | some (_ :: _) => {"package_versions"}

/-- The keys written by the callable, non-skipped `capture_` hooks. -/
def hookKeys (attrs : List (String × Attr)) (before : List String) : Finset String :=
  match attrs with
  | [] => ∅
  | (_, .nonCallable _) :: rest => hookKeys rest before
  | (name, .callable hm) :: rest =>
    if name ∈ before then hookKeys rest before
    else (hm.writes.map Prod.fst).toFinset ∪ hookKeys rest before

/-- The telemetry key, present exactly when a sampler is configured. -/
def telemKeysOf (b : Bench) : Finset String :=
  if b.telemetry.isSome then {"telemetry"} else ∅

/-- The return-value key, present exactly when `MBReturnValue` is mixed
in. -/
def retKeysOf (b : Bench) : Finset String :=
  if b.returnValue then {"return_value"} else ∅

/-- A pipeline constructed with an underscore-prefixed static field. -/
def secretBench : Bench :=
  { plainBench with bm_static := [("_secret", .int 1)] }

mutual

theorem warnCount_val : ∀ (key : String) (v : PyVal),
    (encodeValSpec key v).2.length = unencodableLeaves v
  | _, .none => rfl
  | _, .bool _ => rfl
  | _, .int _ => rfl
  | _, .str _ => rfl
  | _, .dt _ => rfl
  | _, .func _ => rfl
  | _, .obj _ => rfl
  | key, .list xs => by
      simpa [encodeValSpec, unencodableLeaves] using warnCount_list key xs
  | key, .dict kvs => by
      simpa [encodeValSpec, unencodableLeaves] using warnCount_dict kvs

theorem warnCount_list : ∀ (key : String) (xs : List PyVal),
    (encodeListSpec key xs).2.length = unencodableLeavesList xs
  | _, [] => rfl
  | key, v :: vs => by
      simp [encodeListSpec, unencodableLeavesList, warnCount_val key v,
        warnCount_list key vs]

theorem warnCount_dict : ∀ (kvs : List (String × PyVal)),
    (encodeDictSpec kvs).2.length = unencodableLeavesDict kvs
  | [] => rfl
  | kv :: kvs => by
      simp [encodeDictSpec, unencodableLeavesDict, warnCount_val kv.1 kv.2,
        warnCount_dict kvs]

end

mutual

theorem encodeSpec_agrees_val : ∀ (key : String) (v : PyVal),
    unencodableLeaves v = 0 → encodeVal v = .ok (encodeValSpec key v).1
  | _, .none, _ => rfl
  | _, .bool _, _ => rfl
  | _, .int _, _ => rfl
  | _, .str _, _ => rfl
  | _, .dt _, _ => rfl
  | _, .func _, h => by simp [unencodableLeaves] at h
  | _, .obj _, h => by simp [unencodableLeaves] at h
  | key, .list xs, h => by
      have hx : unencodableLeavesList xs = 0 := by
        simpa [unencodableLeaves] using h
      simp [encodeVal, encodeValSpec, encodeSpec_agrees_list key xs hx]
  | key, .dict kvs, h => by
      have hx : unencodableLeavesDict kvs = 0 := by
        simpa [unencodableLeaves] using h
      simp [encodeVal, encodeValSpec, encodeSpec_agrees_dict kvs hx]

theorem encodeSpec_agrees_list : ∀ (key : String) (xs : List PyVal),
    unencodableLeavesList xs = 0 →
    encodeValList xs = .ok (encodeListSpec key xs).1
  | _, [], _ => rfl
  | key, v :: vs, h => by
      have h2 : unencodableLeaves v = 0 ∧ unencodableLeavesList vs = 0 := by
        simpa [unencodableLeavesList] using h
      simp [encodeValList, encodeListSpec, encodeSpec_agrees_val key v h2.1,
        encodeSpec_agrees_list key vs h2.2]

theorem encodeSpec_agrees_dict : ∀ (kvs : List (String × PyVal)),
    unencodableLeavesDict kvs = 0 →
    encodeValDict kvs = .ok (encodeDictSpec kvs).1
  | [], _ => rfl
  | kv :: kvs, h => by
      have h2 : unencodableLeaves kv.2 = 0 ∧ unencodableLeavesDict kvs = 0 := by
        simpa [unencodableLeavesDict] using h
      simp [encodeValDict, encodeDictSpec, encodeSpec_agrees_val kv.1 kv.2 h2.1,
        encodeSpec_agrees_dict kvs h2.2]

end

theorem encodeDictSpec_map (kvs : List (String × PyVal)) :
    (encodeDictSpec kvs).1 = kvs.map (fun kv => (kv.1, (encodeValSpec kv.1 kv.2).1)) := by
  induction kvs with
  | nil => rfl
  | cons kv kvs ih => simp [encodeDictSpec, ih]

theorem getVal_append_of_absent (r l : Record) (k : String)
    (h : r.any (fun kv => kv.1 == k) = false) : getVal (r ++ l) k = getVal l k := by
  induction r with
  | nil => rfl
  | cons kv rest ih =>
    simp only [List.any_cons, Bool.or_eq_false_iff] at h
    have hne : kv.1 ≠ k := by simpa using h.1
    simp [getVal, hne, ih h.2]

theorem getVal_map_overwrite (r : Record) (k : String) (v : PyVal)
    (h : r.any (fun kv => kv.1 == k) = true) :
    getVal (r.map (fun kv => if kv.1 = k then (k, v) else kv)) k = some v := by
  induction r with
  | nil => simp at h
  | cons kv rest ih =>
    by_cases hk : kv.1 = k
    · simp [getVal, hk]
    · have h2 : rest.any (fun kv => kv.1 == k) = true := by
        cases hkv : (kv.1 == k) with
        | true => exact absurd (by simpa using hkv) hk
        | false => simpa [List.any_cons, hkv] using h
      simp [getVal, hk, ih h2]

theorem getVal_setKey_self (r : Record) (k : String) (v : PyVal) :
    getVal (setKey r k v) k = some v := by
  unfold setKey
  cases hany : r.any (fun kv => kv.1 == k) with
  | true => simp [getVal_map_overwrite r k v hany]
  | false => simp [getVal_append_of_absent r _ k hany, getVal]

theorem getVal_map_overwrite_ne (r : Record) (k k2 : String) (v : PyVal) (h : k ≠ k2) :
    getVal (r.map (fun kv => if kv.1 = k2 then (k2, v) else kv)) k = getVal r k := by
  induction r with
  | nil => rfl
  | cons kv rest ih =>
    by_cases hk : kv.1 = k2
    · have h1 : k2 ≠ k := fun e => h e.symm
      have h2 : kv.1 ≠ k := by rw [hk]; exact h1
      simp [getVal, hk, h1, h2, ih]
    · simp [getVal, hk, ih]

theorem getVal_append_single_ne (r : Record) (k k2 : String) (v : PyVal) (h : k ≠ k2) :
    getVal (r ++ [(k2, v)]) k = getVal r k := by
  induction r with
  | nil =>
    have h1 : k2 ≠ k := fun e => h e.symm
    simp [getVal, h1]
  | cons kv rest ih => by_cases hk : kv.1 = k <;> simp [getVal, hk, ih]

theorem getVal_setKey_ne (r : Record) (k k2 : String) (v : PyVal) (h : k ≠ k2) :
    getVal (setKey r k2 v) k = getVal r k := by
  unfold setKey
  cases hany : r.any (fun kv => kv.1 == k2) with
  | true => simp [getVal_map_overwrite_ne r k k2 v h]
  | false => simp [getVal_append_single_ne r k k2 v h]

theorem getVal_stripTransient (r : Record) (k : String) (h : underscored k = false) :
    getVal (stripTransient r) k = getVal r k := by
  induction r with
  | nil => rfl
  | cons kv rest ih =>
    cases hu : underscored kv.1 with
    | false =>
      by_cases hk : kv.1 = k
      · simp only [stripTransient, List.filter_cons, hu, Bool.not_false, if_true, getVal, hk,
          if_true]
        simp [h, getVal, hk]
      · simp only [stripTransient, List.filter_cons, hu, Bool.not_false, if_true, getVal, hk,
          if_false]
        simpa [stripTransient] using ih
    | true =>
      have hk : kv.1 ≠ k := by
        intro e
        rw [e, h] at hu
        exact Bool.false_ne_true hu
      simp only [stripTransient, List.filter_cons, hu, Bool.not_true, if_false, getVal, hk]
      simpa [stripTransient] using ih

theorem runThreadLoop_len (spec : TelemetrySpec) (s : Sched) :
    ∀ (i fuel : Nat) (acc : List PyVal),
    acc.length ≤ (runThreadLoop spec s i fuel acc).1.length
  | _, 0, _ => le_refl _
  | i, fuel + 1, acc => by
    unfold runThreadLoop
    split
    · exact le_refl _
    · split
      · exact le_refl _
      · exact le_trans (by simp) (runThreadLoop_len spec s (i + 1) fuel _)

theorem runThreadLoop_halts (spec : TelemetrySpec) (s : Sched) :
    ∀ (N i fuel : Nat) (acc : List PyVal), s.term (i + N) = true → N < fuel →
    (runThreadLoop spec s i fuel acc).2 = true
  | 0, _, 0, _, _, hf => absurd hf (by omega)
  | 0, i, fuel + 1, acc, hterm, _ => by
    unfold runThreadLoop
    rw [Nat.add_zero] at hterm
    simp [hterm]
  | N + 1, _, 0, _, _, hf => absurd hf (by omega)
  | N + 1, i, fuel + 1, acc, hterm, hf => by
    unfold runThreadLoop
    split
    · rfl
    · split
      · rfl
      · refine runThreadLoop_halts spec s N (i + 1) fuel _ ?_ (by omega)
        rw [show i + 1 + N = i + (N + 1) from by omega]
        exact hterm

theorem runThread_ge_one (spec : TelemetrySpec) (s : Sched)
    (fields : List (String × PyVal)) (hfn : spec.fn 0 = .ok fields) :
    1 ≤ (runThread spec s).1.length := by
  unfold runThread
  rw [hfn]
  exact le_trans (by simp) (runThreadLoop_len spec s 0 s.fuel [mkSample s 0 fields])

theorem runThread_halts (spec : TelemetrySpec) (s : Sched) (N : Nat)
    (hterm : s.term N = true) (hfuel : N < s.fuel) : (runThread spec s).2 = true := by
  unfold runThread
  cases hfn : spec.fn 0 with
  | error e => rfl
  | ok fields =>
    exact runThreadLoop_halts spec s N 0 s.fuel _ (by simpa using hterm) hfuel

theorem runThread_first_sample_error (spec : TelemetrySpec) (s : Sched) (e : String)
    (hfn : spec.fn 0 = .error e) : runThread spec s = ([], true) := by
  unfold runThread
  rw [hfn]

theorem runThreadLoop_error_at (spec : TelemetrySpec) (s : Sched)
    (fields : Nat → List (String × PyVal)) (e : String) :
    ∀ (j i fuel : Nat) (acc : List PyVal),
    (∀ m, i < m → m ≤ i + j → spec.fn m = .ok (fields m)) →
    spec.fn (i + j + 1) = .error e →
    (∀ m, i ≤ m → m ≤ i + j → s.term m = false) →
    j < fuel →
    runThreadLoop spec s i fuel acc =
      (acc ++ (List.range j).map (fun m => mkSample s (i + m + 1) (fields (i + m + 1))), true)
  | 0, i, fuel, acc, hok, herr, hterm, hfuel => by
    obtain ⟨g, rfl⟩ : ∃ g, fuel = g + 1 := ⟨fuel - 1, by omega⟩
    unfold runThreadLoop
    rw [hterm i (le_refl i) (by omega), if_neg Bool.false_ne_true]
    rw [Nat.add_zero] at herr
    rw [herr]
    simp
  | j + 1, i, fuel, acc, hok, herr, hterm, hfuel => by
    obtain ⟨g, rfl⟩ : ∃ g, fuel = g + 1 := ⟨fuel - 1, by omega⟩
    unfold runThreadLoop
    rw [hterm i (le_refl i) (by omega), if_neg Bool.false_ne_true]
    rw [hok (i + 1) (by omega) (by omega)]
    show runThreadLoop spec s (i + 1) g (acc ++ [mkSample s (i + 1) (fields (i + 1))]) = _
    rw [runThreadLoop_error_at spec s fields e j (i + 1) g
      (acc ++ [mkSample s (i + 1) (fields (i + 1))])
      (fun m h1 h2 => hok m (by omega) (by omega))
      (by rw [show i + 1 + j + 1 = i + (j + 1) + 1 from by omega]; exact herr)
      (fun m h1 h2 => hterm m (by omega) (by omega))
      (by omega)]
    rw [List.append_assoc]
    refine congrArg (fun l => (acc ++ l, true)) ?_
    rw [List.range_succ_eq_map, List.map_cons, List.map_map]
    refine congrArg₂ List.cons (by rw [Nat.add_zero]) ?_
    apply List.map_congr_left
    intro m _
    simp only [Function.comp]
    rw [show i + (m + 1) + 1 = i + 1 + m + 1 from by omega]

theorem runThread_error_at (spec : TelemetrySpec) (s : Sched)
    (fields : Nat → List (String × PyVal)) (j : Nat) (e : String)
    (hok : ∀ i, i < j → spec.fn i = .ok (fields i))
    (herr : spec.fn j = .error e)
    (hterm : ∀ i, i < j → s.term i = false)
    (hfuel : j ≤ s.fuel) :
    runThread spec s =
      ((List.range j).map (fun i => mkSample s i (fields i)), true) := by
  cases j with
  | zero =>
    unfold runThread
    rw [herr]
    simp
  | succ n =>
    unfold runThread
    rw [hok 0 (by omega)]
    show runThreadLoop spec s 0 s.fuel [mkSample s 0 (fields 0)] = _
    rw [runThreadLoop_error_at spec s fields e n 0 s.fuel [mkSample s 0 (fields 0)]
      (fun m h1 h2 => hok m (by omega))
      (by rw [show 0 + n + 1 = n + 1 from by omega]; exact herr)
      (fun m h1 h2 => hterm m (by omega))
      (by omega)]
    refine congrArg (fun l => (l, true)) ?_
    rw [List.range_succ_eq_map, List.map_cons, List.map_map]
    refine (congrArg₂ List.cons rfl ?_).symm
    apply List.map_congr_left
    intro m _
    simp only [Function.comp]
    rw [show 0 + m + 1 = m + 1 from by omega]

theorem pre_run_shape (b : Bench) (s : Sched) (environ : String → Option String)
    (r0 bm2 : Record) (tinfo : List PyVal × Bool)
    (hpre : pre_run_triggers b s environ r0 = .ok (bm2, tinfo)) :
    ∃ r3 : Record,
      bm2 = setKey (telemetryRecord b s r3).1 "start_time" (.dt (s.clock s.mStart)) ∧
      tinfo = (telemetryRecord b s r3).2 := by
  unfold pre_run_triggers at hpre
  split at hpre
  · exact Except.noConfusion hpre
  · split at hpre
    · exact Except.noConfusion hpre
    · rename_i r3 heq3
      injection hpre with h
      rw [Prod.mk.injEq] at h
      exact ⟨r3, h.1.symm, h.2.symm⟩

theorem pre_run_start_time (b : Bench) (s : Sched) (environ : String → Option String)
    (r0 bm2 : Record) (tinfo : List PyVal × Bool)
    (hpre : pre_run_triggers b s environ r0 = .ok (bm2, tinfo)) :
    getVal bm2 "start_time" = some (.dt (s.clock s.mStart)) := by
  obtain ⟨r3, hb, _⟩ := pre_run_shape b s environ r0 bm2 tinfo hpre
  rw [hb]
  exact getVal_setKey_self _ _ _

theorem pre_run_telemetry (b : Bench) (spec : TelemetrySpec) (s : Sched)
    (environ : String → Option String) (r0 bm2 : Record) (tinfo : List PyVal × Bool)
    (htel : b.telemetry = some spec)
    (hpre : pre_run_triggers b s environ r0 = .ok (bm2, tinfo)) :
    tinfo = runThread spec s ∧
    getVal bm2 "telemetry" = some (.list (runThread spec s).1) := by
  obtain ⟨r3, hb, ht⟩ := pre_run_shape b s environ r0 bm2 tinfo hpre
  rw [hb, ht]
  unfold telemetryRecord
  rw [htel]
  refine ⟨rfl, ?_⟩
  rw [getVal_setKey_ne _ _ _ _ (by decide), getVal_setKey_self]

theorem getVal_finalRecord_ne (b : Bench) (s : Sched) (bm2 : Record) (res : PyVal)
    (k : String) (h1 : k ≠ "finish_time") (h2 : k ≠ "return_value")
    (hu : underscored k = false) :
    getVal (finalRecord b s bm2 res) k = getVal bm2 k := by
  unfold finalRecord post_run_triggers
  cases hb : b.returnValue with
  | true =>
    rw [if_pos rfl]
    rw [getVal_stripTransient _ _ hu, getVal_setKey_ne _ _ _ _ h2,
      getVal_setKey_ne _ _ _ _ h1]
  | false =>
    rw [if_neg Bool.false_ne_true]
    rw [getVal_stripTransient _ _ hu, getVal_setKey_ne _ _ _ _ h1]

theorem getVal_finalRecord_finish (b : Bench) (s : Sched) (bm2 : Record) (res : PyVal) :
    getVal (finalRecord b s bm2 res) "finish_time" = some (.dt (s.clock s.mFin)) := by
  unfold finalRecord post_run_triggers
  cases hb : b.returnValue with
  | true =>
    rw [if_pos rfl]
    rw [getVal_stripTransient _ _ (by rfl), getVal_setKey_ne _ _ _ _ (by decide),
      getVal_setKey_self]
  | false =>
    rw [if_neg Bool.false_ne_true]
    rw [getVal_stripTransient _ _ (by rfl), getVal_setKey_self]

theorem env_key_head (a : String) : ("env_" ++ a).data.head? = some 'e' := by
  rw [String.data_append]
  rfl

theorem env_key_inj (a b : String) (h : ("env_" ++ a) = ("env_" ++ b)) : a = b := by
  have hd := congrArg String.data h
  rw [String.data_append, String.data_append] at hd
  exact String.ext (List.append_cancel_left hd)

theorem ne_env_key_of_head (c : String) (a : String)
    (h : c.data.head? = some 'e' → False) : c ≠ "env_" ++ a := by
  intro he
  exact h (by rw [he, env_key_head])

theorem underscored_env_key (a : String) : underscored ("env_" ++ a) = false := by
  unfold underscored
  rw [String.data_append]
  rfl

theorem getVal_envPhase_not_mem (names : List String) (environ : String → Option String)
    (r : Record) (k : String) (h : ∀ m ∈ names, ("env_" ++ m) ≠ k) :
    getVal (envPhase names environ r) k = getVal r k := by
  induction names generalizing r with
  | nil => rfl
  | cons m rest ih =>
    unfold envPhase
    rw [ih _ (fun m2 hm2 => h m2 (List.mem_cons_of_mem _ hm2)),
      getVal_setKey_ne _ _ _ _ (Ne.symm (h m (List.mem_cons_self _ _)))]

theorem getVal_envPhase_mem (names : List String) (environ : String → Option String)
    (r : Record) (name : String) (hmem : name ∈ names) :
    getVal (envPhase names environ r) ("env_" ++ name) = some (pyOfEnv (environ name)) := by
  induction names generalizing r with
  | nil => cases hmem
  | cons m rest ih =>
    by_cases hr : name ∈ rest
    · unfold envPhase
      exact ih _ hr
    · have hm : m = name := by
        rcases List.mem_cons.mp hmem with h | h
        · exact h.symm
        · exact absurd h hr
      subst hm
      unfold envPhase
      rw [getVal_envPhase_not_mem rest environ _ _
        (fun m2 hm2 => fun e => hr (env_key_inj m2 m e ▸ hm2)),
        getVal_setKey_self]

theorem getVal_addPkgVersion (r r1 : Record) (p : String × Option String) (k : String)
    (h : addPkgVersion r p = .ok r1) (hk : k ≠ "package_versions") :
    getVal r1 k = getVal r k := by
  unfold addPkgVersion at h
  split at h
  · injection h with h1
    rw [← h1, getVal_setKey_ne _ _ _ _ hk]
  · injection h with h1
    rw [← h1, getVal_setKey_ne _ _ _ _ hk]
  · exact Except.noConfusion h

theorem getVal_versionsPhase (ps : List (String × Option String)) (r r2 : Record) (k : String)
    (h : versionsPhase ps r = .ok r2) (hk : k ≠ "package_versions") :
    getVal r2 k = getVal r k := by
  induction ps generalizing r with
  | nil =>
    injection h with h1
    rw [h1]
  | cons p rest ih =>
    unfold versionsPhase at h
    split at h
    · exact Except.noConfusion h
    · rename_i r1 hadd
      rw [ih r1 h, getVal_addPkgVersion r r1 p k hadd hk]

theorem getVal_applyWrites_not_mem (ws : List (String × (Record → PyVal))) (r : Record)
    (k : String) (h : ∀ w ∈ ws, w.1 ≠ k) :
    getVal (applyWrites ws r) k = getVal r k := by
  induction ws generalizing r with
  | nil => rfl
  | cons w rest ih =>
    unfold applyWrites
    rw [ih _ (fun w2 hw2 => h w2 (List.mem_cons_of_mem _ hw2)),
      getVal_setKey_ne _ _ _ _ (Ne.symm (h w (List.mem_cons_self _ _)))]

theorem getVal_runAttrs (attrs : List (String × Attr)) (before : List String)
    (r r2 : Record) (k : String) (h : runAttrs attrs before r = .ok r2)
    (hk : ∀ na ∈ attrs, ∀ hm : HookModel, na.2 = Attr.callable hm →
      ∀ w ∈ hm.writes, w.1 ≠ k) :
    getVal r2 k = getVal r k := by
  induction attrs generalizing r with
  | nil =>
    injection h with h1
    rw [h1]
  | cons na rest ih =>
    obtain ⟨name, a⟩ := na
    cases a with
    | nonCallable v =>
      simp only [runAttrs] at h
      exact ih r h (fun na2 hna2 => hk na2 (List.mem_cons_of_mem _ hna2))
    | callable hm =>
      simp only [runAttrs] at h
      split at h
      · exact ih r h (fun na2 hna2 => hk na2 (List.mem_cons_of_mem _ hna2))
      · split at h
        · exact Except.noConfusion h
        · rename_i r1 hrh
          have hr1 : r1 = applyWrites hm.writes r := by
            unfold runHook at hrh
            split at hrh
            · exact Except.noConfusion hrh
            · injection hrh with h2
              exact h2.symm
          rw [ih r1 h (fun na2 hna2 => hk na2 (List.mem_cons_of_mem _ hna2)), hr1,
            getVal_applyWrites_not_mem _ _ _
              (hk (name, Attr.callable hm) (List.mem_cons_self _ _) hm rfl)]

theorem getVal_hooksPhase (b : Bench) (r r3 : Record) (k : String)
    (h : hooksPhase b r = .ok r3) (hk1 : k ≠ "function_name")
    (hk2 : ∀ na ∈ b.captureAttrs, ∀ hm : HookModel, na.2 = Attr.callable hm →
      ∀ w ∈ hm.writes, w.1 ≠ k) :
    getVal r3 k = getVal r k := by
  unfold hooksPhase at h
  split at h
  · exact Except.noConfusion h
  · rename_i r1 hcap
    rw [getVal_runAttrs b.captureAttrs b.capture_before r1 r3 k h hk2]
    unfold captureFunctionName at hcap
    split at hcap
    · injection hcap with h1
      rw [← h1, getVal_setKey_ne _ _ _ _ hk1]
    · exact Except.noConfusion hcap

theorem getVal_telemetryRecord_ne (b : Bench) (s : Sched) (r : Record) (k : String)
    (hk : k ≠ "telemetry") : getVal (telemetryRecord b s r).1 k = getVal r k := by
  unfold telemetryRecord
  cases htel : b.telemetry with
  | none => rfl
  | some spec => exact getVal_setKey_ne _ _ _ _ hk

theorem pre_run_chain (b : Bench) (s : Sched) (environ : String → Option String)
    (r0 bm2 : Record) (tinfo : List PyVal × Bool)
    (hpre : pre_run_triggers b s environ r0 = .ok (bm2, tinfo)) :
    ∃ r2 r3 : Record,
      versionsApplied b (envApplied b environ r0) = .ok r2 ∧
      hooksPhase b r2 = .ok r3 ∧
      bm2 = setKey (telemetryRecord b s r3).1 "start_time" (.dt (s.clock s.mStart)) ∧
      tinfo = (telemetryRecord b s r3).2 := by
  unfold pre_run_triggers at hpre
  split at hpre
  · exact Except.noConfusion hpre
  · rename_i r2 heq2
    split at hpre
    · exact Except.noConfusion hpre
    · rename_i r3 heq3
      injection hpre with h
      rw [Prod.mk.injEq] at h
      exact ⟨r2, r3, heq2, heq3, h.1.symm, h.2.symm⟩

/-- C1: The serializer never fails: for every record handed to it, encoding
returns a JSON string (the spec-modelled serializer `to_json` is total);
every value it cannot natively encode is replaced by the fixed sentinel
placeholder, which is a distinguished string constant and not JSON null;
exactly one warning naming the offending key and type is emitted per
unencodable leaf; and sibling values in the same container are preserved —
each key of the record is encoded independently, and a value with no
unencodable leaf keeps exactly the encoding the strict serializer of src
would give it. -/
theorem C1_serializer_never_fails_placeholder :
    (∀ r : Record, (to_json r).2.length = unencodableLeavesDict r) ∧
    (∀ key ty, encodeValSpec key (.obj ty) = (.str UNENCODABLE_PLACEHOLDER, [(key, ty)])) ∧
    JValue.str UNENCODABLE_PLACEHOLDER ≠ JValue.null ∧
    (∀ (key : String) (v : PyVal), unencodableLeaves v = 0 →
      encodeVal v = .ok (encodeValSpec key v).1) ∧
    (∀ r : Record,
      (to_json r).1 =
        renderJson (.obj (r.map (fun kv => (kv.1, (encodeValSpec kv.1 kv.2).1))))) := by
  refine ⟨fun r => warnCount_dict r, fun key ty => rfl, fun h => JValue.noConfusion h,
    fun key v h => encodeSpec_agrees_val key v h, fun r => ?_⟩
  simp [to_json, encodeDictSpec_map]

/-- Witness for C1 at a concrete record value with no unencodable leaf. -/
theorem C1_serializer_never_fails_placeholder_witness :
    unencodableLeaves (.dict [("a", .int 1), ("b", .dt 5)]) = 0 ∧
    encodeVal (.dict [("a", .int 1), ("b", .dt 5)]) =
      .ok (encodeValSpec "k" (.dict [("a", .int 1), ("b", .dt 5)])).1 :=
  ⟨rfl, C1_serializer_never_fails_placeholder.2.2.2.1 "k" _ rfl⟩

/-- C2: For every wrapped function and argument list, provided the
pre-run instrumentation itself does not raise, the wrapped call returns
exactly the original function's result (value or exception) unchanged;
and when the wrapped function raises, no record is persisted: the sink is
untouched. -/
theorem C2_pipeline_transparent (b : Bench) (s : Sched) (environ : String → Option String)
    (files : String → String) (f : List PyVal → List (String × PyVal) → Except String PyVal)
    (fname : String) (args : List PyVal) (kwargs : List (String × PyVal))
    (pr : Record × (List PyVal × Bool))
    (hpre : pre_run_triggers b s environ (initialRecord b fname args kwargs) = .ok pr) :
    (innerCall b s environ files f fname args kwargs).res = f args kwargs ∧
    ∀ e, f args kwargs = .error e →
      (innerCall b s environ files f fname args kwargs).record = Option.none ∧
      (innerCall b s environ files f fname args kwargs).outfile = b.outfile ∧
      (innerCall b s environ files f fname args kwargs).files = files := by
  obtain ⟨bm2, tinfo⟩ := pr
  constructor
  · cases hf : f args kwargs <;> simp [innerCall, hpre, hf]
  · intro e hf
    simp [innerCall, hpre, hf]

/-- Witness for C2: a concrete pipeline and a wrapped function that
raises; the exception propagates and the sink is untouched. -/
theorem C2_pipeline_transparent_witness :
    (innerCall
      { bm_static := [("some_info", .str "x")], env_vars := Option.none
        capture_versions := Option.none, captureAttrs := [], capture_before := []
        telemetry := Option.none, returnValue := false, outfile := .stream "" }
      { clock := fun n => (n : Int), mStart := 0, mFin := 1, tsched := fun j => j
        term := fun _ => true, fuel := 1 }
      (fun _ => Option.none) (fun _ => "") (fun _ _ => .error "boom") "f" [] []).res =
        .error "boom" ∧
    (innerCall
      { bm_static := [("some_info", .str "x")], env_vars := Option.none
        capture_versions := Option.none, captureAttrs := [], capture_before := []
        telemetry := Option.none, returnValue := false, outfile := .stream "" }
      { clock := fun n => (n : Int), mStart := 0, mFin := 1, tsched := fun j => j
        term := fun _ => true, fuel := 1 }
      (fun _ => Option.none) (fun _ => "") (fun _ _ => .error "boom") "f" [] []).record =
        Option.none := by
  have h := C2_pipeline_transparent
    { bm_static := [("some_info", .str "x")], env_vars := Option.none
      capture_versions := Option.none, captureAttrs := [], capture_before := []
      telemetry := Option.none, returnValue := false, outfile := .stream "" }
    { clock := fun n => (n : Int), mStart := 0, mFin := 1, tsched := fun j => j
      term := fun _ => true, fuel := 1 }
    (fun _ => Option.none) (fun _ => "") (fun _ _ => .error "boom") "f" [] [] _ rfl
  exact ⟨h.1, (h.2 "boom" rfl).1⟩

/-- C10: A pipeline constructed with no `outfile` argument and no class
`outfile` attribute gets a fresh empty in-memory text stream as its sink,
and every persisted record line is appended to that stream. -/
theorem C10_default_sink_memory_stream :
    (∀ (kwargs : Record) (b : Bench),
      initBench [] Option.none Option.none kwargs = .ok b → b.outfile = .stream "") ∧
    (∀ (b : Bench) (s : Sched) (environ : String → Option String) (files : String → String)
      (f : List PyVal → List (String × PyVal) → Except String PyVal)
      (fname : String) (args : List PyVal) (kwargs : List (String × PyVal))
      (bm2 : Record) (tinfo : List PyVal × Bool) (v : PyVal) (buf : String),
      b.outfile = .stream buf →
      pre_run_triggers b s environ (initialRecord b fname args kwargs) = .ok (bm2, tinfo) →
      f args kwargs = .ok v →
      (innerCall b s environ files f fname args kwargs).outfile =
        .stream (buf ++ ((to_json (finalRecord b s bm2 v)).1 ++ "\n"))) := by
  constructor
  · intro kwargs b hinit
    simp only [initBench, List.isEmpty_nil, Bool.not_true, Bool.false_eq_true,
      if_false, Except.ok.injEq] at hinit
    subst hinit
    rfl
  · intro b s environ files f fname args kwargs bm2 tinfo v buf hout hpre hf
    simp [innerCall, hpre, hf, output_result, hout]

/-- Witness for C10: concrete default construction and one persisted call. -/
theorem C10_default_sink_memory_stream_witness :
    (∃ b, initBench [] Option.none Option.none [("tag", .int 3)] = .ok b ∧
      b.outfile = .stream "") ∧
    (innerCall
      { bm_static := [], env_vars := Option.none, capture_versions := Option.none
        captureAttrs := [], capture_before := [], telemetry := Option.none
        returnValue := false, outfile := .stream "seed" }
      { clock := fun n => (n : Int), mStart := 0, mFin := 1, tsched := fun j => j
        term := fun _ => true, fuel := 1 }
      (fun _ => Option.none) (fun _ => "") (fun _ _ => .ok (.int 7)) "f" [] []).outfile =
      .stream ("seed" ++
        ((to_json (finalRecord
          { bm_static := [], env_vars := Option.none, capture_versions := Option.none
            captureAttrs := [], capture_before := [], telemetry := Option.none
            returnValue := false, outfile := .stream "seed" }
          { clock := fun n => (n : Int), mStart := 0, mFin := 1, tsched := fun j => j
            term := fun _ => true, fuel := 1 }
          [("_func", .func "f"), ("_args", .list []), ("_kwargs", .dict []),
            ("function_name", .str "f"), ("start_time", .dt 0)] (.int 7))).1 ++ "\n")) := by
  constructor
  · exact ⟨_, rfl, C10_default_sink_memory_stream.1 [("tag", .int 3)] _ rfl⟩
  · exact C10_default_sink_memory_stream.2 _ _ _ _ _ "f" [] [] _ ([], true) (.int 7) "seed" rfl rfl rfl

/-- C3 counterexample: the claim fails on the code.  With a telemetry
sampling function that raises on its first invocation, the wrapped call
is not terminally failed: the sampler thread dies silently (an exception
inside a Python thread's `run` is printed, not re-raised in the joining
thread), the call returns the wrapped function's value normally, and a
record is persisted with an empty telemetry sequence. -/
theorem C3_counterexample :
    (innerCall failSamplerBench tinySched emptyEnv emptyFS
      (fun _ _ => .ok (.int 7)) "f" [] []).res = .ok (.int 7) ∧
    (innerCall failSamplerBench tinySched emptyEnv emptyFS
      (fun _ _ => .ok (.int 7)) "f" [] []).record.map (fun r => getVal r "telemetry") =
      some (some (.list [])) :=
  ⟨rfl, rfl⟩

/-- C3 amended: an error raised by the telemetry sampling function at any
invocation during a wrapped call does not propagate to the caller: the
sampler thread dies (it is finished by join time, no further samples are
taken and the failing sample is not appended), the wrapped call still
returns exactly the wrapped function's result, and when that result is a
normal value the record is persisted with exactly the samples collected
before the failure — none at all when the very first invocation fails.
The sampler fails at its `j`-th invocation after the earlier invocations
succeeded and the thread reached it (the terminate event not yet
observed, the join budget not exhausted). -/
theorem C3_sampler_error_not_fatal (b : Bench) (spec : TelemetrySpec) (s : Sched)
    (environ : String → Option String) (files : String → String)
    (f : List PyVal → List (String × PyVal) → Except String PyVal)
    (fname : String) (args : List PyVal) (kwargs : List (String × PyVal))
    (bm2 : Record) (tinfo : List PyVal × Bool)
    (fields : Nat → List (String × PyVal)) (j : Nat) (e : String)
    (htel : b.telemetry = some spec)
    (hok : ∀ i, i < j → spec.fn i = .ok (fields i))
    (herr : spec.fn j = .error e)
    (hterm : ∀ i, i < j → s.term i = false)
    (hfuel : j ≤ s.fuel)
    (hpre : pre_run_triggers b s environ (initialRecord b fname args kwargs) = .ok (bm2, tinfo)) :
    (innerCall b s environ files f fname args kwargs).res = f args kwargs ∧
    (∀ v, f args kwargs = .ok v →
      (innerCall b s environ files f fname args kwargs).telemFinished = true ∧
      getVal ((innerCall b s environ files f fname args kwargs).record.getD []) "telemetry" =
        some (.list ((List.range j).map (fun i => mkSample s i (fields i))))) := by
  have hrt := runThread_error_at spec s fields j e hok herr hterm hfuel
  have htin := (pre_run_telemetry b spec s environ _ bm2 tinfo htel hpre).1
  have hgt := (pre_run_telemetry b spec s environ _ bm2 tinfo htel hpre).2
  constructor
  · cases hf : f args kwargs <;> simp [innerCall, hpre, hf]
  · intro v hf
    constructor
    · simp [innerCall, hpre, hf, htel, htin, hrt]
    · simp only [innerCall, hpre, hf, Option.getD_some]
      rw [getVal_finalRecord_ne _ _ _ _ _ (by decide) (by decide) (by rfl), hgt, hrt]

/-- Witness for the amended C3: a sampler that succeeds once and raises on
its second invocation, under a schedule that reaches that invocation; the
call returns normally and the persisted record keeps exactly the one
sample collected before the failure. -/
theorem C3_sampler_error_not_fatal_witness :
    (innerCall failSecondSamplerBench lateSched emptyEnv emptyFS
      (fun _ _ => .ok (.int 3)) "g" [] []).res = .ok (.int 3) ∧
    (innerCall failSecondSamplerBench lateSched emptyEnv emptyFS
      (fun _ _ => .ok (.int 3)) "g" [] []).telemFinished = true ∧
    getVal ((innerCall failSecondSamplerBench lateSched emptyEnv emptyFS
      (fun _ _ => .ok (.int 3)) "g" [] []).record.getD []) "telemetry" =
      some (.list ((List.range 1).map
        (fun i => mkSample lateSched i [("rss", .int 5)]))) := by
  have h := C3_sampler_error_not_fatal failSecondSamplerBench _ lateSched emptyEnv emptyFS
    (fun _ _ => .ok (.int 3)) "g" [] [] _ _
    (fun _ => [("rss", .int 5)]) 1 "RuntimeError: sampler failed"
    rfl
    (fun i hi => by
      have h0 : i = 0 := by omega
      subst h0
      rfl)
    rfl
    (fun i hi => by
      have h0 : i = 0 := by omega
      subst h0
      rfl)
    (by decide)
    rfl
  exact ⟨h.1, (h.2 (.int 3) rfl).1, (h.2 (.int 3) rfl).2⟩

/-- C4: for every wrapped call on a pipeline with a configured telemetry
sampling function whose first invocation succeeds, the telemetry sequence
of the persisted record contains at least one sample under every
schedule — in particular when the call completes faster than the sampling
interval, i.e. the terminate event is observed already at wait round 0 —
because `run` takes one sample before its first wait; and provided the
thread observes the terminate event set by the post-run within its join
budget, the sampler task is no longer running after the join. -/
theorem C4_telemetry_one_sample_and_stopped (b : Bench) (spec : TelemetrySpec)
    (s : Sched) (environ : String → Option String) (files : String → String)
    (f : List PyVal → List (String × PyVal) → Except String PyVal)
    (fname : String) (args : List PyVal) (kwargs : List (String × PyVal))
    (bm2 : Record) (tinfo : List PyVal × Bool) (v : PyVal)
    (fields : List (String × PyVal)) (N : Nat)
    (htel : b.telemetry = some spec) (hfn : spec.fn 0 = .ok fields)
    (hterm : s.term N = true) (hfuel : N < s.fuel)
    (hpre : pre_run_triggers b s environ (initialRecord b fname args kwargs) = .ok (bm2, tinfo))
    (hf : f args kwargs = .ok v) :
    (∃ samples : List PyVal,
      getVal ((innerCall b s environ files f fname args kwargs).record.getD []) "telemetry" =
        some (.list samples) ∧ 1 ≤ samples.length) ∧
    (innerCall b s environ files f fname args kwargs).telemFinished = true := by
  have htin := (pre_run_telemetry b spec s environ _ bm2 tinfo htel hpre).1
  have hgt := (pre_run_telemetry b spec s environ _ bm2 tinfo htel hpre).2
  constructor
  · refine ⟨(runThread spec s).1, ?_, runThread_ge_one spec s fields hfn⟩
    simp only [innerCall, hpre, hf, Option.getD_some]
    rw [getVal_finalRecord_ne _ _ _ _ _ (by decide) (by decide) (by rfl), hgt]
  · simp [innerCall, hpre, hf, htel, htin, runThread_halts spec s N hterm hfuel]

/-- Witness for C4: a concrete sampler and a schedule in which the call
finishes before the first wait round. -/
theorem C4_telemetry_one_sample_and_stopped_witness :
    (∃ samples : List PyVal,
      getVal ((innerCall okSamplerBench tinySched emptyEnv emptyFS
        (fun _ _ => .ok .none) "h" [] []).record.getD []) "telemetry" =
        some (.list samples) ∧ 1 ≤ samples.length) ∧
    (innerCall okSamplerBench tinySched emptyEnv emptyFS
      (fun _ _ => .ok .none) "h" [] []).telemFinished = true :=
  C4_telemetry_one_sample_and_stopped okSamplerBench _ tinySched emptyEnv emptyFS
    (fun _ _ => .ok .none) "h" [] [] _ _ .none [("rss", .int 5)] 0
    rfl rfl rfl (by decide) rfl rfl

theorem env_key_ne (a c : String) (hc : ¬ c.data.head? = some 'e') : ("env_" ++ a) ≠ c :=
  fun e => hc (e ▸ env_key_head a)

/-- C8 counterexample: the claim fails on the code.  A pipeline carrying a
registered but non-invocable `capture_foo` attribute raises no
configuration error, neither at wrap time nor at the first call: the first
wrapped call succeeds and the whole call is identical to the call on the
same pipeline without the attribute — the hook is silently skipped by the
`callable(method)` guard of `pre_run_triggers`. -/
theorem C8_counterexample :
    (innerCall nonCallableBench tinySched emptyEnv emptyFS
      (fun _ _ => .ok (.int 1)) "f" [] []).res = .ok (.int 1) ∧
    innerCall nonCallableBench tinySched emptyEnv emptyFS
      (fun _ _ => .ok (.int 1)) "f" [] [] =
    innerCall plainBench tinySched emptyEnv emptyFS
      (fun _ _ => .ok (.int 1)) "f" [] [] :=
  ⟨rfl, rfl⟩

/-- C8 amended: hook dispatch never fails on a non-invocable registered
`capture_` attribute; dispatch silently skips every attribute that is not
callable (and every callable listed in `_capture_before`), running exactly
the remaining callable hooks, with no error surfaced at wrap time or at
any call. -/
theorem C8_noncallable_hooks_skipped (attrs : List (String × Attr)) (before : List String)
    (r : Record) :
    runAttrs attrs before r =
      runAttrs (attrs.filter (fun na =>
        match na.2 with
        | .callable _ => decide (na.1 ∉ before)
        | .nonCallable _ => false)) before r := by
  induction attrs generalizing r with
  | nil => rfl
  | cons na rest ih =>
    obtain ⟨name, a⟩ := na
    cases a with
    | nonCallable v => simp [runAttrs, List.filter_cons, ih]
    | callable hm =>
      by_cases hb : name ∈ before
      · simp [runAttrs, List.filter_cons, hb, ih]
      · cases hr : runHook hm r with
        | error e => simp [runAttrs, List.filter_cons, hb, hr]
        | ok r1 => simp [runAttrs, List.filter_cons, hb, hr, ih]

/-- C9: for every environment-variable name configured for capture that
is unset in the process environment, the wrapped call succeeds and the
persisted record contains the key `env_<name>` holding Python `None`
(the null equivalent), not an error — provided the wrapped function and
the remaining instrumentation succeed and no user capture hook writes
that key. -/
theorem C9_unset_env_var_is_none (b : Bench) (s : Sched)
    (environ : String → Option String) (files : String → String)
    (f : List PyVal → List (String × PyVal) → Except String PyVal)
    (fname : String) (args : List PyVal) (kwargs : List (String × PyVal))
    (bm2 : Record) (tinfo : List PyVal × Bool) (v : PyVal)
    (names : List String) (name : String)
    (henv : b.env_vars = some names) (hmem : name ∈ names)
    (hunset : environ name = Option.none)
    (hw : ∀ na ∈ b.captureAttrs, ∀ hm : HookModel, na.2 = Attr.callable hm →
      ∀ w ∈ hm.writes, w.1 ≠ "env_" ++ name)
    (hpre : pre_run_triggers b s environ (initialRecord b fname args kwargs) = .ok (bm2, tinfo))
    (hf : f args kwargs = .ok v) :
    (innerCall b s environ files f fname args kwargs).res = .ok v ∧
    getVal ((innerCall b s environ files f fname args kwargs).record.getD [])
      ("env_" ++ name) = some PyVal.none := by
  obtain ⟨r2, r3, hver, hhooks, hbm2, -⟩ := pre_run_chain b s environ _ bm2 tinfo hpre
  have h1 : getVal bm2 ("env_" ++ name) = some PyVal.none := by
    rw [hbm2, getVal_setKey_ne _ _ _ _ (env_key_ne name _ (by decide)),
      getVal_telemetryRecord_ne _ _ _ _ (env_key_ne name _ (by decide)),
      getVal_hooksPhase b r2 r3 _ hhooks (env_key_ne name _ (by decide)) hw]
    have hva : getVal r2 ("env_" ++ name) =
        getVal (envApplied b environ (initialRecord b fname args kwargs)) ("env_" ++ name) := by
      unfold versionsApplied at hver
      split at hver
      · injection hver with h2
        rw [h2]
      · exact getVal_versionsPhase _ _ r2 _ hver (env_key_ne name _ (by decide))
    rw [hva]
    unfold envApplied
    rw [henv, getVal_envPhase_mem _ environ _ name hmem, hunset]
    rfl
  constructor
  · simp [innerCall, hpre, hf]
  · simp only [innerCall, hpre, hf, Option.getD_some]
    rw [getVal_finalRecord_ne _ _ _ _ _ (env_key_ne name _ (by decide))
      (env_key_ne name _ (by decide)) (underscored_env_key name), h1]

/-- Witness for C9: a concrete pipeline capturing the unset variable
`HOME`. -/
theorem C9_unset_env_var_is_none_witness :
    (innerCall envBench tinySched emptyEnv emptyFS
      (fun _ _ => .ok (.int 2)) "f" [] []).res = .ok (.int 2) ∧
    getVal ((innerCall envBench tinySched emptyEnv emptyFS
      (fun _ _ => .ok (.int 2)) "f" [] []).record.getD []) ("env_" ++ "HOME") =
      some PyVal.none :=
  C9_unset_env_var_is_none envBench tinySched emptyEnv emptyFS
    (fun _ _ => .ok (.int 2)) "f" [] [] _ _ (.int 2) ["HOME"] "HOME"
    rfl (by simp) rfl (fun na hna => absurd hna (List.not_mem_nil na)) rfl rfl

theorem fullTrace_ordered (b : Bench) :
    (fullTrace b).indexOf .stampStart < (fullTrace b).indexOf .callBegin ∧
    (fullTrace b).indexOf .callEnd < (fullTrace b).indexOf .stampFinish ∧
    (b.telemetry.isSome = true →
      (fullTrace b).indexOf .stampFinish < (fullTrace b).indexOf .telemTerminate ∧
      (fullTrace b).indexOf .telemTerminate < (fullTrace b).indexOf .telemJoin) := by
  cases henv : b.env_vars <;> cases hcv : b.capture_versions <;> cases htel : b.telemetry <;>
    simp [fullTrace, preTrace, henv, hcv, htel]

/-- C6 counterexample: the claim fails on the code.  The telemetry thread
is started (line 106) before `start_time` is stamped (line 109), and the
thread's immediate first sample carries its own `datetime.now()` reading,
so under a legal schedule — strictly monotone clock, start stamped before
finish — the first sample attributed to the call can carry a timestamp
strictly before `start_time`, contradicting the claim that `start_time`
is stamped strictly before the first telemetry sample. -/
theorem C6_counterexample :
    StrictMono tinySched.clock ∧ tinySched.mStart < tinySched.mFin ∧
    ∃ sample : PyVal, ∃ rest : List PyVal, ∃ t0 t1 : Int,
      getVal ((innerCall okSamplerBench tinySched emptyEnv emptyFS
        (fun _ _ => .ok .none) "f" [] []).record.getD []) "telemetry" =
        some (.list (sample :: rest)) ∧
      sample = .dict [("timestamp", .dt t0), ("rss", .int 5)] ∧
      getVal ((innerCall okSamplerBench tinySched emptyEnv emptyFS
        (fun _ _ => .ok .none) "f" [] []).record.getD []) "start_time" =
        some (.dt t1) ∧
      t0 < t1 := by
  refine ⟨fun a b h => by simp only [tinySched]; exact_mod_cast h, by decide,
    .dict [("timestamp", .dt 0), ("rss", .int 5)], [], 0, 1, rfl, rfl, rfl, by decide⟩

/-- C6 amended: in every persisted record `finish_time` is strictly
greater than `start_time` (the wall clock being strictly monotone and the
two stamps happening in program order); `start_time` is stamped strictly
before the wrapped call begins; `finish_time` is stamped strictly after
the wrapped call returns and strictly before the telemetry terminate and
join.  (The guarantee that the first telemetry sample comes after
`start_time` is dropped: the sampler is started before the stamp.) -/
theorem C6_finish_after_start_and_ordering (b : Bench) (s : Sched)
    (environ : String → Option String) (files : String → String)
    (f : List PyVal → List (String × PyVal) → Except String PyVal)
    (fname : String) (args : List PyVal) (kwargs : List (String × PyVal))
    (bm2 : Record) (tinfo : List PyVal × Bool) (v : PyVal)
    (hclock : StrictMono s.clock) (hsf : s.mStart < s.mFin)
    (hpre : pre_run_triggers b s environ (initialRecord b fname args kwargs) = .ok (bm2, tinfo))
    (hf : f args kwargs = .ok v) :
    (∃ t1 t2 : Int,
      getVal ((innerCall b s environ files f fname args kwargs).record.getD [])
        "start_time" = some (.dt t1) ∧
      getVal ((innerCall b s environ files f fname args kwargs).record.getD [])
        "finish_time" = some (.dt t2) ∧ t1 < t2) ∧
    ((innerCall b s environ files f fname args kwargs).trace.indexOf .stampStart <
      (innerCall b s environ files f fname args kwargs).trace.indexOf .callBegin) ∧
    ((innerCall b s environ files f fname args kwargs).trace.indexOf .callEnd <
      (innerCall b s environ files f fname args kwargs).trace.indexOf .stampFinish) ∧
    (b.telemetry.isSome = true →
      (innerCall b s environ files f fname args kwargs).trace.indexOf .stampFinish <
        (innerCall b s environ files f fname args kwargs).trace.indexOf .telemTerminate ∧
      (innerCall b s environ files f fname args kwargs).trace.indexOf .telemTerminate <
        (innerCall b s environ files f fname args kwargs).trace.indexOf .telemJoin) := by
  have hst := pre_run_start_time b s environ _ bm2 tinfo hpre
  have htr : (innerCall b s environ files f fname args kwargs).trace = fullTrace b := by
    simp [innerCall, hpre, hf]
  constructor
  · refine ⟨s.clock s.mStart, s.clock s.mFin, ?_, ?_, hclock hsf⟩
    · simp only [innerCall, hpre, hf, Option.getD_some]
      rw [getVal_finalRecord_ne _ _ _ _ _ (by decide) (by decide) (by rfl), hst]
    · simp only [innerCall, hpre, hf, Option.getD_some]
      rw [getVal_finalRecord_finish]
  · rw [htr]
    exact (fullTrace_ordered b)

/-- Witness for the amended C6 at a concrete schedule. -/
theorem C6_finish_after_start_and_ordering_witness :
    (∃ t1 t2 : Int,
      getVal ((innerCall okSamplerBench tinySched emptyEnv emptyFS
        (fun _ _ => .ok .none) "w" [] []).record.getD []) "start_time" = some (.dt t1) ∧
      getVal ((innerCall okSamplerBench tinySched emptyEnv emptyFS
        (fun _ _ => .ok .none) "w" [] []).record.getD []) "finish_time" = some (.dt t2) ∧
      t1 < t2) ∧
    ((innerCall okSamplerBench tinySched emptyEnv emptyFS
      (fun _ _ => .ok .none) "w" [] []).trace.indexOf .stampStart <
      (innerCall okSamplerBench tinySched emptyEnv emptyFS
        (fun _ _ => .ok .none) "w" [] []).trace.indexOf .callBegin) ∧
    ((innerCall okSamplerBench tinySched emptyEnv emptyFS
      (fun _ _ => .ok .none) "w" [] []).trace.indexOf .callEnd <
      (innerCall okSamplerBench tinySched emptyEnv emptyFS
        (fun _ _ => .ok .none) "w" [] []).trace.indexOf .stampFinish) ∧
    (okSamplerBench.telemetry.isSome = true →
      (innerCall okSamplerBench tinySched emptyEnv emptyFS
        (fun _ _ => .ok .none) "w" [] []).trace.indexOf .stampFinish <
        (innerCall okSamplerBench tinySched emptyEnv emptyFS
          (fun _ _ => .ok .none) "w" [] []).trace.indexOf .telemTerminate ∧
      (innerCall okSamplerBench tinySched emptyEnv emptyFS
        (fun _ _ => .ok .none) "w" [] []).trace.indexOf .telemTerminate <
        (innerCall okSamplerBench tinySched emptyEnv emptyFS
          (fun _ _ => .ok .none) "w" [] []).trace.indexOf .telemJoin) :=
  C6_finish_after_start_and_ordering okSamplerBench tinySched emptyEnv emptyFS
    (fun _ _ => .ok .none) "w" [] [] _ _ .none
    (fun a b h => by simp only [tinySched]; exact_mod_cast h) (by decide) rfl rfl

theorem iterDurations_length (clock : Nat → Int) (N : Nat) :
    (iterDurations clock N).length = N := by
  simp [iterDurations]

theorem iterDurations_nonneg (clock : Nat → Int) (N : Nat) (hm : Monotone clock) :
    ∀ d ∈ iterDurations clock N, 0 ≤ d := by
  intro d hd
  simp only [iterDurations, List.mem_map, List.mem_range] at hd
  obtain ⟨i, _, hdi⟩ := hd
  rw [← hdi]
  exact sub_nonneg.mpr (hm (by omega))

theorem iterDurations_sum_le (clock : Nat → Int) (hm : Monotone clock) (N : Nat) :
    (iterDurations clock N).sum ≤ clock (2 * N + 1) - clock 1 := by
  induction N with
  | zero => simp [iterDurations, hm (by omega : (1 : Nat) ≤ 2 * 0 + 1)]
  | succ n ih =>
    rw [iterDurations, List.range_succ, List.map_append, List.sum_append]
    rw [iterDurations] at ih
    have h1 : clock (2 * n + 2) ≤ clock (2 * (n + 1) + 1) := hm (by omega)
    simp only [List.map_cons, List.map_nil, List.sum_cons, List.sum_nil, add_zero]
    linarith

/-- C5: repeated-iteration mode (modelled from the spec; the mode is
absent from the src snapshot and exercised by `test_multi_iterations`):
with `N ≥ 1` configured iterations and a strictly monotone wall clock,
one wrapped call invokes the function exactly `N` times, the persisted
record's `run_durations` sequence has exactly `N` entries, each
non-negative, their sum is strictly less than the overall measured
duration `finish_time - start_time`, and the call returns only the last
iteration's result. -/
theorem C5_repeated_iterations (clock : Nat → Int) (static : Record)
    (f : Nat → PyVal) (N : Nat) (hclock : StrictMono clock) (hN : 1 ≤ N) :
    (iterResults f N).length = N ∧
    getVal (innerCallIter clock static f N).1 "run_durations" =
      some (.list ((iterDurations clock N).map PyVal.int)) ∧
    (iterDurations clock N).length = N ∧
    (∀ d ∈ iterDurations clock N, 0 ≤ d) ∧
    (∃ t1 t2 : Int,
      getVal (innerCallIter clock static f N).1 "start_time" = some (.dt t1) ∧
      getVal (innerCallIter clock static f N).1 "finish_time" = some (.dt t2) ∧
      (iterDurations clock N).sum < t2 - t1) ∧
    (innerCallIter clock static f N).2 = some (f (N - 1)) := by
  have hm : Monotone clock := hclock.monotone
  refine ⟨by simp [iterResults], ?_, iterDurations_length clock N,
    iterDurations_nonneg clock N hm, ⟨clock 0, clock (2 * N + 1), ?_, ?_, ?_⟩, ?_⟩
  · unfold innerCallIter
    rw [getVal_setKey_ne _ _ _ _ (by decide), getVal_setKey_self]
  · unfold innerCallIter
    rw [getVal_setKey_ne _ _ _ _ (by decide), getVal_setKey_ne _ _ _ _ (by decide),
      getVal_setKey_self]
  · unfold innerCallIter
    rw [getVal_setKey_self]
  · have h1 := iterDurations_sum_le clock hm N
    have h2 : clock 0 < clock 1 := hclock (by omega)
    linarith
  · obtain ⟨n, hn⟩ : ∃ n, N = n + 1 := ⟨N - 1, by omega⟩
    subst hn
    unfold innerCallIter iterResults
    rw [List.range_succ, List.map_append]
    simp

/-- Witness for C5 at three iterations and the identity clock. -/
theorem C5_repeated_iterations_witness :
    (iterResults (fun i => .int i) 3).length = 3 ∧
    getVal (innerCallIter (fun n => (n : Int)) [] (fun i => .int i) 3).1 "run_durations" =
      some (.list ((iterDurations (fun n => (n : Int)) 3).map PyVal.int)) ∧
    (iterDurations (fun n => (n : Int)) 3).length = 3 ∧
    (∀ d ∈ iterDurations (fun n => (n : Int)) 3, 0 ≤ d) ∧
    (∃ t1 t2 : Int,
      getVal (innerCallIter (fun n => (n : Int)) [] (fun i => .int i) 3).1 "start_time" =
        some (.dt t1) ∧
      getVal (innerCallIter (fun n => (n : Int)) [] (fun i => .int i) 3).1 "finish_time" =
        some (.dt t2) ∧
      (iterDurations (fun n => (n : Int)) 3).sum < t2 - t1) ∧
    (innerCallIter (fun n => (n : Int)) [] (fun i => .int i) 3).2 = some (.int 2) :=
  C5_repeated_iterations (fun n => (n : Int)) [] (fun i => .int i) 3
    (fun a b h => by simp only []; exact_mod_cast h) (by decide)

theorem keysOf_setKey (r : Record) (k : String) (v : PyVal) :
    keysOf (setKey r k v) = insert k (keysOf r) := by
  unfold setKey
  cases hany : r.any (fun kv => kv.1 == k) with
  | true =>
    rw [if_pos rfl]
    have hmem : k ∈ r.map Prod.fst := by
      simp only [List.any_eq_true, beq_iff_eq] at hany
      obtain ⟨kv, hkv, he⟩ := hany
      exact List.mem_map.mpr ⟨kv, hkv, he⟩
    have hmap : (r.map (fun kv => if kv.1 = k then (k, v) else kv)).map Prod.fst =
        r.map Prod.fst := by
      rw [List.map_map]
      apply List.map_congr_left
      intro kv _
      by_cases hk : kv.1 = k <;> simp [hk]
    unfold keysOf
    rw [hmap]
    exact (Finset.insert_eq_self.mpr (List.mem_toFinset.mpr hmem)).symm
  | false =>
    rw [if_neg Bool.false_ne_true]
    unfold keysOf
    rw [List.map_append, List.toFinset_append]
    ext a
    simp
    all_goals tauto

theorem keysOf_staticFold (l : List (String × PyVal)) (r0 : Record) :
    keysOf (List.foldl (fun r kv => setKey r kv.1 kv.2) r0 l) = keysOf r0 ∪ keysOf l := by
  induction l generalizing r0 with
  | nil => simp [keysOf]
  | cons kv rest ih =>
    rw [List.foldl_cons, ih, keysOf_setKey]
    ext a
    simp [keysOf]

theorem keysOf_initialRecord (b : Bench) (fname : String) (args : List PyVal)
    (kwargs : List (String × PyVal)) :
    keysOf (initialRecord b fname args kwargs) =
      keysOf b.bm_static ∪ {"_func", "_args", "_kwargs"} := by
  unfold initialRecord
  rw [keysOf_setKey, keysOf_setKey, keysOf_setKey, keysOf_staticFold]
  ext a
  simp [keysOf]
  tauto

theorem keysOf_envPhase (names : List String) (environ : String → Option String)
    (r : Record) :
    keysOf (envPhase names environ r) =
      keysOf r ∪ (names.map (fun n => "env_" ++ n)).toFinset := by
  induction names generalizing r with
  | nil => simp [envPhase]
  | cons n rest ih =>
    unfold envPhase
    rw [ih, keysOf_setKey]
    ext a
    simp

theorem keysOf_envApplied (b : Bench) (environ : String → Option String) (r : Record) :
    keysOf (envApplied b environ r) = keysOf r ∪ envKeysOf b := by
  unfold envApplied envKeysOf
  cases henv : b.env_vars with
  | none => simp
  | some names => rw [keysOf_envPhase]

theorem keysOf_addPkgVersion (r r1 : Record) (p : String × Option String)
    (h : addPkgVersion r p = .ok r1) :
    keysOf r1 = insert "package_versions" (keysOf r) := by
  unfold addPkgVersion at h
  split at h
  · injection h with h1
    rw [← h1, keysOf_setKey]
  · injection h with h1
    rw [← h1, keysOf_setKey]
  · exact Except.noConfusion h

theorem keysOf_versionsPhase (ps : List (String × Option String)) (r r2 : Record)
    (h : versionsPhase ps r = .ok r2) :
    keysOf r2 = keysOf r ∪
      (if ps.isEmpty then (∅ : Finset String) else {"package_versions"}) := by
  induction ps generalizing r with
  | nil =>
    injection h with h1
    simp [← h1]
  | cons p rest ih =>
    unfold versionsPhase at h
    split at h
    · exact Except.noConfusion h
    · rename_i r1 hadd
      rw [ih r1 h, keysOf_addPkgVersion r r1 p hadd]
      by_cases hr : rest.isEmpty <;> ext a <;> simp [hr] <;> tauto

theorem keysOf_versionsApplied (b : Bench) (r r2 : Record)
    (h : versionsApplied b r = .ok r2) :
    keysOf r2 = keysOf r ∪ versionKeysOf b := by
  unfold versionsApplied at h
  unfold versionKeysOf
  split at h
  · rename_i hcv
    injection h with h1
    rw [hcv, ← h1]
    simp
  · rename_i ps hcv
    rw [hcv, keysOf_versionsPhase ps r r2 h]
    cases ps <;> simp

theorem keysOf_applyWrites (ws : List (String × (Record → PyVal))) (r : Record) :
    keysOf (applyWrites ws r) = keysOf r ∪ (ws.map Prod.fst).toFinset := by
  induction ws generalizing r with
  | nil => simp [applyWrites]
  | cons w rest ih =>
    unfold applyWrites
    rw [ih, keysOf_setKey]
    ext a
    simp

theorem keysOf_runAttrs (attrs : List (String × Attr)) (before : List String)
    (r r2 : Record) (h : runAttrs attrs before r = .ok r2) :
    keysOf r2 = keysOf r ∪ hookKeys attrs before := by
  induction attrs generalizing r with
  | nil =>
    injection h with h1
    simp [← h1, hookKeys]
  | cons na rest ih =>
    obtain ⟨name, a⟩ := na
    cases a with
    | nonCallable v =>
      simp only [runAttrs] at h
      rw [ih r h]
      simp [hookKeys]
    | callable hm =>
      simp only [runAttrs] at h
      split at h
      · rename_i hb
        rw [ih r h]
        simp [hookKeys, hb]
      · rename_i hb
        split at h
        · exact Except.noConfusion h
        · rename_i r1 hrh
          have hr1 : r1 = applyWrites hm.writes r := by
            unfold runHook at hrh
            split at hrh
            · exact Except.noConfusion hrh
            · injection hrh with h2
              exact h2.symm
          rw [ih r1 h, hr1, keysOf_applyWrites]
          simp only [hookKeys, if_neg hb]
          ext a
          simp

theorem keysOf_hooksPhase (b : Bench) (r r3 : Record) (h : hooksPhase b r = .ok r3) :
    keysOf r3 = insert "function_name" (keysOf r) ∪
      hookKeys b.captureAttrs b.capture_before := by
  unfold hooksPhase at h
  split at h
  · exact Except.noConfusion h
  · rename_i r1 hcap
    rw [keysOf_runAttrs _ _ _ _ h]
    unfold captureFunctionName at hcap
    split at hcap
    · injection hcap with h1
      rw [← h1, keysOf_setKey]
    · exact Except.noConfusion hcap

theorem keysOf_telemetryRecord (b : Bench) (s : Sched) (r : Record) :
    keysOf (telemetryRecord b s r).1 = keysOf r ∪ telemKeysOf b := by
  unfold telemetryRecord telemKeysOf
  cases htel : b.telemetry with
  | none => simp
  | some spec =>
    rw [keysOf_setKey]
    simp only [Option.isSome_some, if_pos rfl]
    ext a
    simp
    all_goals tauto

theorem keysOf_stripTransient (r : Record) :
    keysOf (stripTransient r) = (keysOf r).filter (fun k => underscored k = false) := by
  unfold stripTransient keysOf
  ext a
  simp only [List.mem_toFinset, List.mem_map, List.mem_filter, Finset.mem_filter]
  constructor
  · rintro ⟨kv, ⟨hkv, hu⟩, he⟩
    refine ⟨⟨kv, hkv, he⟩, ?_⟩
    rw [← he]
    simpa using hu
  · rintro ⟨⟨kv, hkv, he⟩, hu⟩
    refine ⟨kv, ⟨hkv, ?_⟩, he⟩
    rw [← he] at hu
    simp [hu]

theorem keysOf_finalRecord (b : Bench) (s : Sched) (bm2 : Record) (res : PyVal) :
    keysOf (finalRecord b s bm2 res) =
      ((insert "finish_time" (keysOf bm2)) ∪ retKeysOf b).filter
        (fun k => underscored k = false) := by
  unfold finalRecord post_run_triggers retKeysOf
  cases hb : b.returnValue with
  | true =>
    rw [if_pos rfl, if_pos rfl, keysOf_stripTransient, keysOf_setKey, keysOf_setKey]
    ext a
    simp
    all_goals tauto
  | false =>
    rw [if_neg Bool.false_ne_true, if_neg Bool.false_ne_true, keysOf_stripTransient,
      keysOf_setKey]
    ext a
    simp

/-- C7 counterexample: the claim fails on the code.  A static field
supplied at construction whose name begins with an underscore (legal as a
constructor kwarg) is stripped with the transient keys, so the persisted
key set is not the union of the static fields, the hook-written keys and
the pipeline-owned fields: `_secret` is a static field, yet absent from
the persisted record. -/
theorem C7_counterexample :
    "_secret" ∈ keysOf secretBench.bm_static ∧
    "_secret" ∉ keysOf ((innerCall secretBench tinySched emptyEnv emptyFS
      (fun _ _ => .ok .none) "f" [] []).record.getD []) ∧
    keysOf ((innerCall secretBench tinySched emptyEnv emptyFS
      (fun _ _ => .ok .none) "f" [] []).record.getD []) ≠
      keysOf secretBench.bm_static ∪ {"function_name", "start_time", "finish_time"} := by
  refine ⟨by decide, by decide, by decide⟩

/-- C7 amended: for every wrapped call that completes normally, the keys
of the persisted record are exactly the non-underscore-prefixed part of
the union of the static fields supplied at construction, the transient
keys, the keys written by the capture phases and the successfully-run
hooks (environment variables, package versions, `function_name`, the
callable non-skipped `capture_` attributes), and the pipeline-owned
fields (`start_time`, `finish_time`, `telemetry` when configured,
`return_value` when enabled); in particular the transient keys `_func`,
`_args`, `_kwargs` — and any other underscore-prefixed key — never reach
the sink. -/
theorem C7_persisted_record_keys (b : Bench) (s : Sched)
    (environ : String → Option String) (files : String → String)
    (f : List PyVal → List (String × PyVal) → Except String PyVal)
    (fname : String) (args : List PyVal) (kwargs : List (String × PyVal))
    (bm2 : Record) (tinfo : List PyVal × Bool) (v : PyVal)
    (hpre : pre_run_triggers b s environ (initialRecord b fname args kwargs) = .ok (bm2, tinfo))
    (hf : f args kwargs = .ok v) :
    keysOf ((innerCall b s environ files f fname args kwargs).record.getD []) =
      ((keysOf b.bm_static ∪ {"_func", "_args", "_kwargs"} ∪ envKeysOf b ∪
        versionKeysOf b ∪ insert "function_name" (hookKeys b.captureAttrs b.capture_before) ∪
        telemKeysOf b ∪ {"start_time", "finish_time"} ∪ retKeysOf b).filter
          (fun k => underscored k = false)) ∧
    "_func" ∉ keysOf ((innerCall b s environ files f fname args kwargs).record.getD []) ∧
    "_args" ∉ keysOf ((innerCall b s environ files f fname args kwargs).record.getD []) ∧
    "_kwargs" ∉ keysOf ((innerCall b s environ files f fname args kwargs).record.getD []) := by
  obtain ⟨r2, r3, hver, hhooks, hbm2, -⟩ := pre_run_chain b s environ _ bm2 tinfo hpre
  have hrec : (innerCall b s environ files f fname args kwargs).record.getD [] =
      finalRecord b s bm2 v := by
    simp [innerCall, hpre, hf]
  have hkeys : keysOf ((innerCall b s environ files f fname args kwargs).record.getD []) =
      ((keysOf b.bm_static ∪ {"_func", "_args", "_kwargs"} ∪ envKeysOf b ∪
        versionKeysOf b ∪ insert "function_name" (hookKeys b.captureAttrs b.capture_before) ∪
        telemKeysOf b ∪ {"start_time", "finish_time"} ∪ retKeysOf b).filter
          (fun k => underscored k = false)) := by
    rw [hrec, keysOf_finalRecord, hbm2, keysOf_setKey, keysOf_telemetryRecord,
      keysOf_hooksPhase b r2 r3 hhooks, keysOf_versionsApplied b _ r2 hver,
      keysOf_envApplied, keysOf_initialRecord]
    ext a
    simp only [Finset.mem_filter, Finset.mem_union, Finset.mem_insert,
      Finset.mem_singleton]
    constructor
    · rintro ⟨h1, h2⟩
      exact ⟨by tauto, h2⟩
    · rintro ⟨h1, h2⟩
      exact ⟨by tauto, h2⟩
  refine ⟨hkeys, ?_, ?_, ?_⟩ <;> rw [hkeys] <;> simp [underscored]

/-- Witness for the amended C7 at a concrete pipeline. -/
theorem C7_persisted_record_keys_witness :
    keysOf ((innerCall envBench tinySched emptyEnv emptyFS
      (fun _ _ => .ok .none) "f" [] []).record.getD []) =
      ((keysOf envBench.bm_static ∪ {"_func", "_args", "_kwargs"} ∪ envKeysOf envBench ∪
        versionKeysOf envBench ∪
        insert "function_name" (hookKeys envBench.captureAttrs envBench.capture_before) ∪
        telemKeysOf envBench ∪ {"start_time", "finish_time"} ∪ retKeysOf envBench).filter
          (fun k => underscored k = false)) ∧
    "_func" ∉ keysOf ((innerCall envBench tinySched emptyEnv emptyFS
      (fun _ _ => .ok .none) "f" [] []).record.getD []) ∧
    "_args" ∉ keysOf ((innerCall envBench tinySched emptyEnv emptyFS
      (fun _ _ => .ok .none) "f" [] []).record.getD []) ∧
    "_kwargs" ∉ keysOf ((innerCall envBench tinySched emptyEnv emptyFS
      (fun _ _ => .ok .none) "f" [] []).record.getD []) :=
  C7_persisted_record_keys envBench tinySched emptyEnv emptyFS
    (fun _ _ => .ok .none) "f" [] [] _ _ .none rfl rfl

end Microbench
